import Mathlib

/-!
Shallow embedding of the AR(p) analytical maximum-likelihood estimator of
`src/exploration/ar_analytical_ml.ipynb` (class `AnalyticalAR`), together with
the fit/forecast contract described by the repository's design document.

Conventions:
* An observation sequence `y(1), …, y(N)` is a `List ℚ`; the 0-based list
  element `y[t]` is the 1-based observation `y(t+1)`, and `N = y.length`.
  The notebook works with exact symbolic arithmetic over the input numbers,
  which we model with `ℚ`.
* `p` (the notebook's `self.order`) is a natural number.
-/

-- The Batteries rational-number operations are `@[irreducible]`, which blocks
-- `decide` on concrete inputs; restore default reducibility for this file.
attribute [local semireducible] Rat.add Rat.mul Rat.inv Rat.sub

set_option maxRecDepth 8000

deriving instance DecidableEq for Except

namespace TsX

/-- Element access `y[i]` (0-based), defaulting to `0` out of range. -/
def nthQ (y : List ℚ) (i : ℕ) : ℚ := y.getD i 0

/-- Python's negative indexing `y[-j-1]`, i.e. the `j`-th element from the end. -/
def nthLast (y : List ℚ) (j : ℕ) : ℚ := nthQ y (y.length - 1 - j)

/-- The `(N-p) × p` lag-design matrix implied by the notebook's residual
`y[i] - Σ_{j<p} phi[j] * y[i-j-1]` summed over `i = p+1 … N`: row `r`
(for the 1-based target time `t = p+1+r`) holds `[y(t-1), …, y(t-p)]`,
i.e. 0-based entries `y[r + (p-1-j)]` for `j = 0 … p-1`. -/
def lagX (p : ℕ) (y : List ℚ) : Matrix (Fin (y.length - p)) (Fin p) ℚ :=
  Matrix.of fun r j => nthQ y (r.val + (p - 1 - j.val))

/-- The target vector `[y(p+1), …, y(N)]` paired with `lagX`. -/
def lagT (p : ℕ) (y : List ℚ) : Fin (y.length - p) → ℚ :=
  fun r => nthQ y (p + r.val)

/-- Normal-equations matrix `A = Xᵀ X`. -/
def normalA (p : ℕ) (y : List ℚ) : Matrix (Fin p) (Fin p) ℚ :=
  (lagX p y).transpose * lagX p y

/-- Normal-equations right-hand side `b = Xᵀ t`. -/
def normalB (p : ℕ) (y : List ℚ) : Fin p → ℚ :=
  (lagX p y).transpose.mulVec (lagT p y)

/-- Residual at design row `r` for coefficients `φ`:
`e(t) = y(t) - Σ_j φ_j y(t-j)` at `t = p+1+r`. -/
def residual (p : ℕ) (y : List ℚ) (φ : Fin p → ℚ) (r : Fin (y.length - p)) : ℚ :=
  lagT p y r - ∑ j, φ j * lagX p y r j

/-- Residual sum of squares `S(φ) = Σ_{t=p+1}^{N} e(t)^2`,
the summation `sp.Sum(residual**2, (i, order+1, N))` of the notebook. -/
def rss (p : ℕ) (y : List ℚ) (φ : Fin p → ℚ) : ℚ :=
  ∑ r, (residual p y φ r) ^ 2

/-- The notebook's symbolic noise-variance expression
`sigma2 = (1 / (N - 2*order)) * Sum(residual**2, (i, order+1, N))`,
as a function of the coefficients. -/
def sigma2Expr (p : ℕ) (y : List ℚ) (φ : Fin p → ℚ) : ℚ :=
  (1 / ((y.length : ℚ) - 2 * p)) * rss p y φ

/-- The symbolic partial derivative `∂ sigma2 / ∂ φ_j` that the notebook's
`sp.diff` produces: differentiating each squared residual gives
`2 * e(t) * (-y(t-j))`. -/
def dSigma2 (p : ℕ) (y : List ℚ) (φ : Fin p → ℚ) (j : Fin p) : ℚ :=
  (1 / ((y.length : ℚ) - 2 * p)) *
    ∑ r, 2 * residual p y φ r * (-(lagX p y r j))

/-- The symbolic partial derivative of the notebook's log-likelihood
`log_likelihood = -(N - order)/2 * log(2 * pi * sigma2)` with respect to
`φ_j`, as `sp.diff` produces it: `-(N-p)/2 * (∂sigma2/∂φ_j) / sigma2`
(the chain rule through `log`; the constant `2π` cancels). -/
def dLogLik (p : ℕ) (y : List ℚ) (φ : Fin p → ℚ) (j : Fin p) : ℚ :=
  -(((y.length : ℚ) - p) / 2) * dSigma2 p y φ j / sigma2Expr p y φ

/-- The unique solution of the normal equations `A φ = b` when `A` is
invertible, via the adjugate (Cramer) formula. The notebook obtains this
same vector as the unique root `sp.solve` finds for the stationarity
equations; the equivalence of the two equation systems is proved below. -/
def fitSolution (p : ℕ) (y : List ℚ) : Fin p → ℚ :=
  ((normalA p y).det)⁻¹ • (normalA p y).adjugate.mulVec (normalB p y)

/-- Method `AnalyticalAR.fit`: solves the stationarity equations of the
log-likelihood. Returns the coefficient vector when the normal-equations
matrix is invertible (the case in which `sp.solve` returns the unique
solution), `none` otherwise. -/
def fitPhi (p : ℕ) (y : List ℚ) : Option (Fin p → ℚ) :=
  if (normalA p y).det = 0 then none else some (fitSolution p y)

/-! ### Forecasting (`AnalyticalAR.predict`) -/

/-- One step of the prediction recurrence,
`pred = sum(self.phi_values[self.phi[j]] * y[-j-1] for j in range(self.order))`. -/
def nextPred (p : ℕ) (phi : Fin p → ℚ) (y : List ℚ) : ℚ :=
  ∑ j : Fin p, phi j * nthLast y j.val

/-- The loop of `AnalyticalAR.predict`: each iteration computes `pred` from the
current working array, appends it to `predictions`, and rebinds the working
array to `np.append(y, pred)` (which allocates a fresh array). Returns the
accumulated predictions together with the final working array. -/
def predictAux (p : ℕ) (phi : Fin p → ℚ) : ℕ → List ℚ → List ℚ × List ℚ
  | 0, y => ([], y)
  | n + 1, y =>
    let pred := nextPred p phi y
    let rest := predictAux p phi n (y ++ [pred])
    (pred :: rest.1, rest.2)

/-- Method `AnalyticalAR.predict`: the sequence of `steps` roll-forward
predictions. -/
def predict (p : ℕ) (phi : Fin p → ℚ) (y : List ℚ) (steps : ℕ) : List ℚ :=
  (predictAux p phi steps y).1

/-- The state of an `AnalyticalAR` object after a successful `fit`: the fitted
coefficients dictionary `self.phi_values` (keyed by the symbols `phi1 … phip`,
modelled as positions). -/
structure ARState (p : ℕ) where
  phi_values : Fin p → ℚ

/-- A call of the method `AnalyticalAR.predict` on an object in state `s`:
it reads `self.phi_values`, never writes any attribute, and returns the
predictions; the object state after the call is returned explicitly. -/
def predictMethod (p : ℕ) (s : ARState p) (y : List ℚ) (steps : ℕ) :
    ARState p × List ℚ :=
  (s, predict p s.phi_values y steps)

/-- Heap-level view of one iteration of the `predict` loop, separating the
caller's array object from the callee's local variable `y`: `np.append(y, pred)`
allocates a fresh array and the local name `y` is rebound to it, so the
caller's object is never written. -/
structure PredState where
  caller : List ℚ
  localY : List ℚ
  preds : List ℚ
deriving DecidableEq

/-- One iteration of the `predict` loop in the heap-level view. -/
def predStep (p : ℕ) (phi : Fin p → ℚ) (s : PredState) : PredState :=
  let pred := nextPred p phi s.localY
  { caller := s.caller, localY := s.localY ++ [pred], preds := s.preds ++ [pred] }

/-- Iterating the `predict` loop in the heap-level view. -/
def predRun (p : ℕ) (phi : Fin p → ℚ) (s : PredState) : ℕ → PredState
  | 0 => s
  | n + 1 => predRun p phi (predStep p phi s) n

/-! ### The fit/forecast contract of the design document

The repository's README advertises a `tsx` library (`model.fit`, `model.predict`)
whose robust implementation the design document specifies; that code is not in
the repository, so the contract layer below is modelled from the specification
text and evaluated over the same exact arithmetic as the notebook embedding. -/

/-- Modelled from the spec: the fit-time error taxonomy of the design document
(the notebook performs no input validation; these exception types exist only in
the specification). -/
inductive FitError where
  | insufficientData
  | singularDesign
  | degenerateVariance
deriving DecidableEq

/-- Modelled from the spec: the forecast-time error of the design document. -/
inductive ForecastError where
  | insufficientHistory
deriving DecidableEq

/-- Modelled from the spec: the immutable fitted-model value, holding the order,
the coefficient vector and the noise-variance estimate together. -/
structure Model where
  order : ℕ
  phi : List ℚ
  sigma2 : ℚ
deriving DecidableEq

/-- Modelled from the spec: the `fit(sequence, order) → Model` entry point,
missing from the exploration notebook. In the design document's order: the
Design Builder fails with `InsufficientDataError` when `N ≤ p + 1`; the
Likelihood Solver solves the normal equations, failing with
`SingularDesignError` when the normal-equations matrix is singular, then checks
the residual degrees of freedom `N - p - k` (`k = p`), failing with
`DegenerateVarianceError` when non-positive, and finally bundles the
coefficients with the variance estimate `(1/(N-p-k)) Σ e(t)²` as a Model. -/
def specFit (y : List ℚ) (p : ℕ) : Except FitError Model :=
  if y.length ≤ p + 1 then .error .insufficientData
  else if (normalA p y).det = 0 then .error .singularDesign
  else if y.length ≤ 2 * p then .error .degenerateVariance
  else .ok { order := p
             phi := List.ofFn (fitSolution p y)
             sigma2 := (1 / ((y.length : ℚ) - p - p)) * rss p y (fitSolution p y) }

/-- Modelled from the spec: the `forecast(Model, history, horizon)` entry
point, missing from the exploration notebook: fails with
`InsufficientHistoryError` when the history has fewer than `p` values, and
otherwise rolls the AR recurrence forward for `horizon` steps. -/
def specForecast (m : Model) (y : List ℚ) (horizon : ℕ) :
    Except ForecastError (List ℚ) :=
  if y.length < m.order then .error .insufficientHistory
  else .ok (predict m.order (fun j => m.phi.getD j.val 0) y horizon)

/-- The Model the contract `fit` produces on the notebook's example series
`y = [1,2,2,5,8,14]`, `p = 2`. -/
def exampleModel : Model :=
  { order := 2, phi := [26/27, 35/27], sigma2 := 19/18 }

/-! ### Basic lemmas about the prediction loop -/

theorem predict_zero (p : ℕ) (phi : Fin p → ℚ) (y : List ℚ) :
    predict p phi y 0 = [] := rfl

theorem predict_succ (p : ℕ) (phi : Fin p → ℚ) (y : List ℚ) (n : ℕ) :
    predict p phi y (n + 1) =
      nextPred p phi y :: predict p phi (y ++ [nextPred p phi y]) n := rfl

theorem predict_length (p : ℕ) (phi : Fin p → ℚ) (y : List ℚ) (n : ℕ) :
    (predict p phi y n).length = n := by
  induction n generalizing y with
  | zero => rfl
  | succ n ih => rw [predict_succ]; simp [ih]

theorem predRun_caller (p : ℕ) (phi : Fin p → ℚ) (n : ℕ) (s : PredState) :
    (predRun p phi s n).caller = s.caller := by
  induction n generalizing s with
  | zero => rfl
  | succ n ih => rw [predRun, ih]; rfl

theorem predRun_preds (p : ℕ) (phi : Fin p → ℚ) (n : ℕ) (s : PredState) :
    (predRun p phi s n).preds = s.preds ++ predict p phi s.localY n := by
  induction n generalizing s with
  | zero => simp [predRun, predict_zero]
  | succ n ih => rw [predRun, ih, predStep, predict_succ]; simp

theorem predict_getD_eq_nextPred (p : ℕ) (phi : Fin p → ℚ) (i : ℕ) :
    ∀ (n : ℕ) (y : List ℚ), i < n →
      (predict p phi y n).getD i 0 =
        nextPred p phi (y ++ (predict p phi y n).take i) := by
  induction i with
  | zero =>
    intro n y hn
    match n, hn with
    | n + 1, _ => rw [predict_succ]; simp
  | succ i ih =>
    intro n y hn
    match n, hn with
    | n + 1, hn =>
      rw [predict_succ]
      simp only [List.getD_cons_succ, List.take_succ_cons]
      rw [ih n (y ++ [nextPred p phi y]) (by omega)]
      simp [List.append_assoc]

theorem nthLast_eq_getD_reverse_take (y : List ℚ) (p j : ℕ) (hp : p ≤ y.length)
    (hj : j < p) : nthLast y j = (y.reverse.take p).getD j 0 := by
  unfold nthLast nthQ
  have h1 : y.length - 1 - j < y.length := by omega
  have h2 : j < (y.reverse.take p).length := by
    rw [List.length_take, List.length_reverse]; omega
  have h3 : j < y.reverse.length := by rw [List.length_reverse]; omega
  rw [List.getD_eq_getElem y 0 h1, List.getD_eq_getElem (y.reverse.take p) 0 h2]
  rw [List.getElem_take, List.getElem_reverse]

theorem nextPred_eq_of_last_eq (p : ℕ) (phi : Fin p → ℚ) (y₁ y₂ : List ℚ)
    (h1 : p ≤ y₁.length) (h2 : p ≤ y₂.length)
    (ht : y₁.reverse.take p = y₂.reverse.take p) :
    nextPred p phi y₁ = nextPred p phi y₂ := by
  unfold nextPred
  refine Finset.sum_congr rfl fun j _ => ?_
  rw [nthLast_eq_getD_reverse_take y₁ p j h1 j.isLt,
      nthLast_eq_getD_reverse_take y₂ p j h2 j.isLt, ht]

theorem reverse_take_append (y₁ y₂ : List ℚ) (e : ℚ) (p : ℕ)
    (ht : y₁.reverse.take p = y₂.reverse.take p) :
    (y₁ ++ [e]).reverse.take p = (y₂ ++ [e]).reverse.take p := by
  cases p with
  | zero => simp
  | succ q =>
    have h3 := congrArg (List.take q) ht
    rw [List.take_take, List.take_take] at h3
    simp only [Nat.min_eq_left (Nat.le_succ q)] at h3
    simp [List.reverse_append, List.take_succ_cons, h3]

end TsX

namespace TsX

/-! ### The stationarity equations and the normal equations -/

theorem residual_eq_sub_mulVec (p : ℕ) (y : List ℚ) (φ : Fin p → ℚ) :
    residual p y φ = lagT p y - (lagX p y).mulVec φ := by
  funext r
  unfold residual
  simp only [Pi.sub_apply, Matrix.mulVec, Matrix.dotProduct]
  congr 1
  exact Finset.sum_congr rfl fun j _ => mul_comm _ _

theorem sum_residual_lag (p : ℕ) (y : List ℚ) (φ : Fin p → ℚ) (j : Fin p) :
    ∑ r, 2 * residual p y φ r * (-(lagX p y r j)) =
      2 * ((normalA p y).mulVec φ j - normalB p y j) := by
  have h1 : ∑ r, 2 * residual p y φ r * (-(lagX p y r j)) =
      (-2 : ℚ) * ∑ r, (lagX p y).transpose j r * residual p y φ r := by
    rw [Finset.mul_sum]
    exact Finset.sum_congr rfl fun r _ => by
      simp only [Matrix.transpose_apply]; ring
  have h2 : ∑ r, (lagX p y).transpose j r * residual p y φ r =
      (lagX p y).transpose.mulVec (residual p y φ) j := rfl
  have h3 : (lagX p y).transpose.mulVec ((lagX p y).mulVec φ) =
      (normalA p y).mulVec φ := by
    rw [normalA, Matrix.mulVec_mulVec]
  have h4 : (lagX p y).transpose.mulVec (lagT p y) = normalB p y := rfl
  rw [h1, h2, residual_eq_sub_mulVec, Matrix.mulVec_sub, Pi.sub_apply, h3, h4]
  ring

theorem dSigma2_eq (p : ℕ) (y : List ℚ) (φ : Fin p → ℚ) (j : Fin p) :
    dSigma2 p y φ j = (1 / ((y.length : ℚ) - 2 * p)) *
      (2 * ((normalA p y).mulVec φ j - normalB p y j)) := by
  unfold dSigma2
  rw [sum_residual_lag]

theorem dLogLik_zero_iff (p : ℕ) (y : List ℚ) (φ : Fin p → ℚ)
    (hN : 2 * p < y.length) (hrss : rss p y φ ≠ 0) (j : Fin p) :
    dLogLik p y φ j = 0 ↔ (normalA p y).mulVec φ j = normalB p y j := by
  have hcast : 2 * (p : ℚ) < (y.length : ℚ) := by
    have := (Nat.cast_lt (α := ℚ)).mpr hN
    push_cast at this
    linarith
  have hc : ((y.length : ℚ) - 2 * p) ≠ 0 := by linarith
  have h1d : (1 / ((y.length : ℚ) - 2 * p)) ≠ 0 := by
    rw [one_div]
    exact inv_ne_zero hc
  have hNp : ((y.length : ℚ) - p) ≠ 0 := by
    have hp0 : (0 : ℚ) ≤ (p : ℚ) := by positivity
    linarith
  have hσ : sigma2Expr p y φ ≠ 0 := by
    unfold sigma2Expr
    exact mul_ne_zero h1d hrss
  have hcoef : -(((y.length : ℚ) - p) / 2) ≠ 0 :=
    neg_ne_zero.mpr (div_ne_zero hNp (by norm_num))
  unfold dLogLik
  rw [div_eq_zero_iff, or_iff_left hσ, mul_eq_zero, or_iff_right hcoef,
    dSigma2_eq, mul_eq_zero, or_iff_right h1d, mul_eq_zero,
    or_iff_right (by norm_num : (2 : ℚ) ≠ 0), sub_eq_zero]

/-- C1: with `N > 2p` and a non-singular lag design, `fit`'s coefficient
vector (the unique root of the stationarity equations that `sp.solve`
returns) satisfies the least-squares normal equations `Xᵀ X φ = Xᵀ t`, and
more generally a coefficient vector is a stationary point of the conditional
log-likelihood the notebook differentiates — all symbolic partial derivatives
zero — exactly when it satisfies the normal equations. -/
theorem fit_stationary_point_is_least_squares (p : ℕ) (y : List ℚ)
    (φ : Fin p → ℚ) (hN : 2 * p < y.length)
    (hdet : (normalA p y).det ≠ 0) (hrss : rss p y φ ≠ 0) :
    fitPhi p y = some (fitSolution p y) ∧
      (normalA p y).mulVec (fitSolution p y) = normalB p y ∧
      ((∀ j, dLogLik p y φ j = 0) ↔
        (normalA p y).mulVec φ = normalB p y) ∧
      (∀ ψ : Fin p → ℚ, (normalA p y).mulVec ψ = normalB p y →
        ψ = fitSolution p y) := by
  refine ⟨?_, ?_, ?_, ?_⟩
  · unfold fitPhi
    rw [if_neg hdet]
  · unfold fitSolution
    rw [Matrix.mulVec_smul, Matrix.mulVec_mulVec, Matrix.mul_adjugate,
      Matrix.smul_mulVec_assoc, Matrix.one_mulVec, smul_smul,
      inv_mul_cancel₀ hdet, one_smul]
  · rw [funext_iff]
    exact forall_congr' fun j => dLogLik_zero_iff p y φ hN hrss j
  · intro ψ hψ
    have h5 : (normalA p y).adjugate.mulVec ((normalA p y).mulVec ψ) =
        (normalA p y).adjugate.mulVec (normalB p y) := by rw [hψ]
    rw [Matrix.mulVec_mulVec, Matrix.adjugate_mul, Matrix.smul_mulVec_assoc,
      Matrix.one_mulVec] at h5
    unfold fitSolution
    rw [← h5, smul_smul, inv_mul_cancel₀ hdet, one_smul]

/-- Witness for `fit_stationary_point_is_least_squares` at the notebook's
example series. -/
theorem fit_stationary_point_is_least_squares_witness :
    2 * 2 < ([1, 2, 2, 5, 8, 14] : List ℚ).length ∧
      (normalA 2 [1, 2, 2, 5, 8, 14]).det ≠ 0 ∧
      rss 2 [1, 2, 2, 5, 8, 14] ![0, 0] ≠ 0 ∧
      (fitPhi 2 [1, 2, 2, 5, 8, 14] = some (fitSolution 2 [1, 2, 2, 5, 8, 14]) ∧
        (normalA 2 [1, 2, 2, 5, 8, 14]).mulVec (fitSolution 2 [1, 2, 2, 5, 8, 14]) =
          normalB 2 [1, 2, 2, 5, 8, 14] ∧
        ((∀ j, dLogLik 2 [1, 2, 2, 5, 8, 14] ![0, 0] j = 0) ↔
          (normalA 2 [1, 2, 2, 5, 8, 14]).mulVec ![0, 0] =
            normalB 2 [1, 2, 2, 5, 8, 14]) ∧
        (∀ ψ : Fin 2 → ℚ,
          (normalA 2 [1, 2, 2, 5, 8, 14]).mulVec ψ = normalB 2 [1, 2, 2, 5, 8, 14] →
            ψ = fitSolution 2 [1, 2, 2, 5, 8, 14])) :=
  ⟨by decide, by decide, by decide,
    fit_stationary_point_is_least_squares 2 [1, 2, 2, 5, 8, 14] ![0, 0]
      (by decide) (by decide) (by decide)⟩

/-! ### Claim theorems: forecasting -/

/-- C8: for every fitted model of order `p`, history of at least `p` values,
and requested horizon `h ≥ 0`, the forecast is a sequence of exactly `h`
values. -/
theorem predict_length_eq_horizon (p : ℕ) (phi : Fin p → ℚ) (y : List ℚ)
    (horizon : ℕ) (_hp : p ≤ y.length) :
    (predict p phi y horizon).length = horizon :=
  predict_length p phi y horizon

/-- Witness for `predict_length_eq_horizon` at the notebook's example. -/
theorem predict_length_eq_horizon_witness :
    2 ≤ ([1, 2, 2, 5, 8, 14] : List ℚ).length ∧
      (predict 2 ![26/27, 35/27] [1, 2, 2, 5, 8, 14] 3).length = 3 :=
  ⟨by decide, predict_length_eq_horizon 2 ![26/27, 35/27] [1, 2, 2, 5, 8, 14] 3 (by decide)⟩

/-- C3: writing the claim's 1-based forecast index `i` as the 0-based index
`i`, the `i`-th forecast value equals
`ŷ(N+i+1) = Σ_{j<p} φ[j] ⋅ ŷ(N+i-j)` evaluated over the history extended by
the previously produced forecasts themselves — a pure roll-forward with no
lookahead, no re-estimation and no noise term. -/
theorem predict_step_recurrence (p : ℕ) (phi : Fin p → ℚ) (y : List ℚ)
    (horizon i : ℕ) (_hp : p ≤ y.length) (hi : i < horizon) :
    (predict p phi y horizon).getD i 0 =
      ∑ j : Fin p, phi j *
        nthQ (y ++ (predict p phi y horizon).take i)
          (y.length + i - 1 - j.val) := by
  rw [predict_getD_eq_nextPred p phi i horizon y hi]
  have hw : (y ++ (predict p phi y horizon).take i).length = y.length + i := by
    rw [List.length_append, List.length_take, predict_length]
    omega
  unfold nextPred nthLast
  simp only [hw]

/-- Witness for `predict_step_recurrence`: the second of the notebook's three
forecasts is the recurrence applied to `[y; first forecast]`. -/
theorem predict_step_recurrence_witness :
    2 ≤ ([1, 2, 2, 5, 8, 14] : List ℚ).length ∧ 1 < 3 ∧
      (predict 2 ![26/27, 35/27] [1, 2, 2, 5, 8, 14] 3).getD 1 0 =
        ∑ j : Fin 2, (![26/27, 35/27] : Fin 2 → ℚ) j *
          nthQ ([1, 2, 2, 5, 8, 14] ++
              (predict 2 ![26/27, 35/27] [1, 2, 2, 5, 8, 14] 3).take 1)
            (([1, 2, 2, 5, 8, 14] : List ℚ).length + 1 - 1 - j.val) :=
  ⟨by decide, by decide,
    predict_step_recurrence 2 ![26/27, 35/27] [1, 2, 2, 5, 8, 14] 3 1
      (by decide) (by decide)⟩

/-- C10: two histories of length at least `p` that agree on their last `p`
elements produce identical forecasts at every horizon: earlier history values
have no influence. -/
theorem predict_depends_only_on_last_p (p : ℕ) (phi : Fin p → ℚ)
    (y₁ y₂ : List ℚ) (horizon : ℕ) (h1 : p ≤ y₁.length) (h2 : p ≤ y₂.length)
    (ht : y₁.reverse.take p = y₂.reverse.take p) :
    predict p phi y₁ horizon = predict p phi y₂ horizon := by
  induction horizon generalizing y₁ y₂ with
  | zero => rfl
  | succ n ih =>
    have he : nextPred p phi y₁ = nextPred p phi y₂ :=
      nextPred_eq_of_last_eq p phi y₁ y₂ h1 h2 ht
    rw [predict_succ, predict_succ, he]
    rw [ih (y₁ ++ [nextPred p phi y₂]) (y₂ ++ [nextPred p phi y₂])
      (by simp; omega) (by simp; omega)
      (reverse_take_append y₁ y₂ (nextPred p phi y₂) p ht)]

/-- Witness for `predict_depends_only_on_last_p`: a long and a short history
with the same last two values forecast identically. -/
theorem predict_depends_only_on_last_p_witness :
    2 ≤ ([1, 2, 2, 5, 8, 14] : List ℚ).length ∧ 2 ≤ ([8, 14] : List ℚ).length ∧
      ([1, 2, 2, 5, 8, 14] : List ℚ).reverse.take 2 =
        ([8, 14] : List ℚ).reverse.take 2 ∧
      predict 2 ![26/27, 35/27] [1, 2, 2, 5, 8, 14] 3 =
        predict 2 ![26/27, 35/27] [8, 14] 3 :=
  ⟨by decide, by decide, by decide,
    predict_depends_only_on_last_p 2 ![26/27, 35/27] [1, 2, 2, 5, 8, 14] [8, 14] 3
      (by decide) (by decide) (by decide)⟩

/-- C7: calling predict twice with the identical model state, history and
horizon yields identical output sequences, and a call leaves the model state
unchanged: forecasting is deterministic with no hidden mutable state carried
between calls. -/
theorem predict_idempotent_no_hidden_state (p : ℕ) (s : ARState p) (y : List ℚ)
    (steps : ℕ) :
    (predictMethod p s y steps).1 = s ∧
      (predictMethod p (predictMethod p s y steps).1 y steps).2 =
        (predictMethod p s y steps).2 :=
  ⟨rfl, rfl⟩

/-- C9: the prediction loop accumulates its forecasts in a fresh sequence and
leaves the caller's supplied history array unchanged (`np.append` allocates,
the local variable is rebound). -/
theorem predict_preserves_caller_history (p : ℕ) (phi : Fin p → ℚ)
    (y : List ℚ) (steps : ℕ) :
    (predRun p phi { caller := y, localY := y, preds := [] } steps).caller = y ∧
      (predRun p phi { caller := y, localY := y, preds := [] } steps).preds =
        predict p phi y steps := by
  refine ⟨predRun_caller p phi steps _, ?_⟩
  simpa using predRun_preds p phi steps { caller := y, localY := y, preds := [] }

/-! ### Claim theorems: the fit/forecast contract -/

/-- C4: `fit` on any sequence of length `N ≤ p + 1` fails with
`InsufficientDataError`, and no Model is produced. -/
theorem specFit_insufficient_data (y : List ℚ) (p : ℕ)
    (h : y.length ≤ p + 1) :
    specFit y p = .error .insufficientData := by
  simp [specFit, h]

/-- Witness for `specFit_insufficient_data` at the boundary `N = p + 1`. -/
theorem specFit_insufficient_data_witness :
    ([1, 2] : List ℚ).length ≤ 1 + 1 ∧
      specFit [1, 2] 1 = .error .insufficientData :=
  ⟨by decide, specFit_insufficient_data [1, 2] 1 (by decide)⟩

/-- C6: `forecast` on a fitted model of order `p` with a history of fewer than
`p` values fails with `InsufficientHistoryError`. -/
theorem specForecast_insufficient_history (m : Model) (y : List ℚ)
    (horizon : ℕ) (h : y.length < m.order) :
    specForecast m y horizon = .error .insufficientHistory := by
  simp [specForecast, h]

/-- Witness for `specForecast_insufficient_history`. -/
theorem specForecast_insufficient_history_witness :
    ([14] : List ℚ).length < ({ order := 2, phi := [26/27, 35/27], sigma2 := 19/18 } : Model).order ∧
      specForecast { order := 2, phi := [26/27, 35/27], sigma2 := 19/18 } [14] 3 =
        .error .insufficientHistory :=
  ⟨by decide,
    specForecast_insufficient_history
      { order := 2, phi := [26/27, 35/27], sigma2 := 19/18 } [14] 3 (by decide)⟩

theorem ofFn_getD_eq (p : ℕ) (f : Fin p → ℚ) :
    (fun j : Fin p => (List.ofFn f).getD j.val 0) = f := by
  funext j
  rw [List.getD_eq_getElem (List.ofFn f) 0 (by simp [j.isLt]), List.getElem_ofFn]

/-- C2: a successful `fit` returns the coefficients and the noise-variance
estimate `σ̂² = (1/(N - p - k)) Σ_{t=p+1}^N e(t)²` with `k = p`, computed from
the very coefficients contained in the result, bundled together as a Model —
never coefficients without the variance. -/
theorem specFit_ok_bundles (y : List ℚ) (p : ℕ) (m : Model)
    (hm : specFit y p = .ok m) :
    m.order = p ∧ m.phi.length = p ∧
      m.sigma2 = (1 / ((y.length : ℚ) - p - p)) *
        rss p y (fun j => m.phi.getD j.val 0) := by
  unfold specFit at hm
  split_ifs at hm
  simp only [Except.ok.injEq] at hm
  subst hm
  exact ⟨rfl, by simp, by rw [ofFn_getD_eq]⟩

/-- Witness for `specFit_ok_bundles` at the notebook's example series. -/
theorem specFit_ok_bundles_witness :
    specFit [1, 2, 2, 5, 8, 14] 2 = .ok exampleModel ∧
      (exampleModel.order = 2 ∧ exampleModel.phi.length = 2 ∧
        exampleModel.sigma2 =
          (1 / ((([1, 2, 2, 5, 8, 14] : List ℚ).length : ℚ) -
              ((2 : ℕ) : ℚ) - ((2 : ℕ) : ℚ))) *
            rss 2 [1, 2, 2, 5, 8, 14] (fun j => exampleModel.phi.getD j.val 0)) :=
  ⟨by decide, specFit_ok_bundles [1, 2, 2, 5, 8, 14] 2 exampleModel (by decide)⟩

/-! ### The singular-design boundary -/

theorem lagX_replicate (n p : ℕ) (c : ℚ) (hpn : p < n)
    (r : Fin ((List.replicate n c).length - p)) (j : Fin p) :
    lagX p (List.replicate n c) r j = c := by
  unfold lagX nthQ
  have hr : r.val < n - p := by simpa using r.isLt
  have hj : j.val < p := j.isLt
  have hlt : r.val + (p - 1 - j.val) < n := by omega
  simp only [Matrix.of_apply]
  rw [List.getD_eq_getElem (List.replicate n c) 0 (by simpa using hlt)]
  simp

theorem normalA_replicate_row_eq (n p : ℕ) (c : ℚ) (hpn : p < n)
    (i i' : Fin p) (j : Fin p) :
    normalA p (List.replicate n c) i j = normalA p (List.replicate n c) i' j := by
  unfold normalA
  simp only [Matrix.mul_apply, Matrix.transpose_apply]
  refine Finset.sum_congr rfl fun r _ => ?_
  rw [lagX_replicate n p c hpn r i, lagX_replicate n p c hpn r i',
    lagX_replicate n p c hpn r j]

theorem normalA_replicate_det_zero (n p : ℕ) (c : ℚ) (hp : 2 ≤ p)
    (hpn : p < n) : (normalA p (List.replicate n c)).det = 0 := by
  have h01 : (⟨0, by omega⟩ : Fin p) ≠ ⟨1, by omega⟩ :=
    Fin.ne_of_val_ne (by simp)
  exact Matrix.det_zero_of_row_eq h01
    (funext fun j => normalA_replicate_row_eq n p c hpn _ _ j)

/-- C5 counterexample: a perfectly constant nonzero sequence with order
`p = 1` (and enough data) yields a single, linearly independent lag column
with `Xᵀ X = [50] ≠ 0`, so `fit` succeeds instead of raising
`SingularDesignError`. -/
theorem specFit_constant_p1_not_singular :
    specFit (List.replicate 3 (5 : ℚ)) 1 ≠ .error .singularDesign := by
  decide

/-- C5 amended: for a perfectly constant sequence of length `N > p + 1` and
every order `p ≥ 2`, the identical lag columns make the normal-equations
matrix singular and `fit` raises `SingularDesignError` (for `p = 1` the single
lag column is linearly dependent only when the constant is zero, and a nonzero
constant sequence fits successfully). -/
theorem specFit_constant_singular (c : ℚ) (p n : ℕ) (hp : 2 ≤ p)
    (hn : p + 1 < n) :
    specFit (List.replicate n c) p = .error .singularDesign := by
  unfold specFit
  rw [if_neg (by simp; omega),
    if_pos (normalA_replicate_det_zero n p c hp (by omega))]

/-- Witness for `specFit_constant_singular`. -/
theorem specFit_constant_singular_witness :
    2 ≤ 2 ∧ 2 + 1 < 4 ∧
      specFit (List.replicate 4 (5 : ℚ)) 2 = .error .singularDesign :=
  ⟨by decide, by decide, specFit_constant_singular 5 2 4 (by decide) (by decide)⟩

/-- Cross-validation of the embedding against the notebook's printed output
`Predicted values: [23.8518518518518 41.1165980795610 70.5128283290149]`:
the embedded fit and predict reproduce those three values as exact
rationals (`644/27 = 23.8518…`, `29974/729 = 41.1165…`,
`1387904/19683 = 70.5128…`). -/
theorem predict_matches_notebook_output :
    predict 2 (fitSolution 2 [1, 2, 2, 5, 8, 14]) [1, 2, 2, 5, 8, 14] 3 =
      [644/27, 29974/729, 1387904/19683] := by decide

/-- Cross-validation: the normal-equations data of the example series. -/
theorem normal_equations_example :
    normalA 2 [1, 2, 2, 5, 8, 14] = !![97, 56; 56, 34] ∧
      normalB 2 [1, 2, 2, 5, 8, 14] = ![166, 98] ∧
      fitSolution 2 [1, 2, 2, 5, 8, 14] = ![26/27, 35/27] := by
  refine ⟨by decide, by decide, by decide⟩

end TsX
